import Mathlib

/-!
Shallow embedding of the deterministic core of `src/backend/server.py`:
the wagon allocator (`optimize_wagon_loading`), the demurrage alert
estimator (`get_active_demurrage_alerts`, `get_total_demurrage_cost`)
and the cost optimizer (`optimize_costs`).  Python floats are modelled
as rationals; database snapshots are passed as explicit lists.
-/

namespace RailRake

/-! ### Wagon allocator (`optimize_wagon_loading`, server.py 1740-1800) -/

structure Wagon where
  id : String
  wagon_number : String
  capacity : ℚ
deriving Repr, DecidableEq

structure WagonAllocation where
  wagon_id : String
  wagon_number : String
  capacity : ℚ
  allocated_load : ℚ
  utilization : ℚ
deriving Repr, DecidableEq

/-- The greedy loop of `optimize_wagon_loading`: walk the (sorted) wagon
list, load `min(capacity, remaining)` into each wagon, stop when the
remaining quantity is exhausted. -/
def allocateGreedy : List Wagon → ℚ → List WagonAllocation × ℚ
  | [], remaining => ([], remaining)
  | w :: ws, remaining =>
    if remaining ≤ 0 then ([], remaining)
    else
      let load := min w.capacity remaining
      let rest := allocateGreedy ws (remaining - load)
      (⟨w.id, w.wagon_number, w.capacity, load, load / w.capacity * 100⟩ :: rest.1, rest.2)

/-- Python `wagons.sort(key=lambda x: x['capacity'], reverse=True)`: stable sort
by capacity, descending. -/
def sortWagons (ws : List Wagon) : List Wagon :=
  ws.mergeSort (fun a b => decide (b.capacity ≤ a.capacity))

structure WagonOptimizationResult where
  total_quantity : ℚ
  wagons_allocated : ℕ
  average_utilization : ℚ
  full_wagons : ℕ
  non_full_wagons : ℕ
  wagon_allocations : List WagonAllocation
  remaining_quantity : ℚ
  optimization_score : ℚ
deriving Repr, DecidableEq

/-- The spec error taxonomy for the allocator; the handler itself has no
code path that raises for bad quantities, so no constructor is ever
produced by `optimize_wagon_loading`. -/
inductive AllocError where
  | invalidInput
deriving Repr, DecidableEq

/-- The endpoint `optimize_wagon_loading` (server.py 1740-1800): sort the available
wagons by capacity descending, run the greedy loop, report metrics.
The `Except` layer mirrors the endpoint's try/except: no branch of the
body signals an error for any quantity or wagon list. -/
def optimize_wagon_loading (total_quantity : ℚ) (wagons : List Wagon) :
    Except AllocError WagonOptimizationResult :=
  let sorted := sortWagons wagons
  let alloc := allocateGreedy sorted total_quantity
  let allocated := alloc.1
  let n := allocated.length
  let avg : ℚ := if n > 0 then (allocated.map (·.utilization)).sum / n else 0
  let full := (allocated.filter (fun w => w.utilization ≥ 95)).length
  .ok { total_quantity := total_quantity
        wagons_allocated := n
        average_utilization := avg
        full_wagons := full
        non_full_wagons := n - full
        wagon_allocations := allocated
        remaining_quantity := alloc.2
        optimization_score := avg }

/-! ### Demurrage estimator (`get_active_demurrage_alerts`,
`get_total_demurrage_cost`, server.py 1802-1900) -/

structure Rake where
  id : String
  rake_number : String
  status : String
  formation_time : ℚ
  wagon_ids : List String
deriving Repr, DecidableEq

structure DemurrageAlert where
  rake_id : String
  current_duration_hours : ℚ
  cost_per_hour : ℚ
  total_demurrage_cost : ℚ
  alert_level : String
deriving Repr, DecidableEq

/-- Severity classification of `get_active_demurrage_alerts`:
`> 48` severe, `> 24` critical, `> 12` warning, otherwise no alert
(the loop does `continue`). -/
def classify_alert (duration_hours : ℚ) : Option String :=
  if duration_hours > 48 then some "severe"
  else if duration_hours > 24 then some "critical"
  else if duration_hours > 12 then some "warning"
  else none

/-- Per-rake body of `get_active_demurrage_alerts`: elapsed time since
formation, cost `duration_hours * 2000`, severity classification. -/
def rake_alert (now : ℚ) (rake : Rake) : Option DemurrageAlert :=
  let duration_hours := now - rake.formation_time
  let cost_per_hour : ℚ := 2000
  let total_cost := duration_hours * cost_per_hour
  match classify_alert duration_hours with
  | none => none
  | some lvl => some ⟨rake.id, duration_hours, cost_per_hour, total_cost, lvl⟩

/-- Python `alerts.sort(key=lambda x: (x.alert_level=="severe",
x.alert_level=="critical", x.total_demurrage_cost), reverse=True)`. -/
def alertKeyLe (x y : DemurrageAlert) : Bool :=
  let kx : ℕ × ℕ × ℚ := (cond (x.alert_level == "severe") 1 0,
    cond (x.alert_level == "critical") 1 0, x.total_demurrage_cost)
  let ky : ℕ × ℕ × ℚ := (cond (y.alert_level == "severe") 1 0,
    cond (y.alert_level == "critical") 1 0, y.total_demurrage_cost)
  kx.1 < ky.1 || (kx.1 == ky.1 && (kx.2.1 < ky.2.1 ||
    (kx.2.1 == ky.2.1 && decide (kx.2.2 ≤ ky.2.2))))

/-- The endpoint `get_active_demurrage_alerts`: scan the rakes in `loading` status,
build one alert per rake whose dwell time passes the cutoff, sort by
severity and cost descending. -/
def get_active_demurrage_alerts (now : ℚ) (rakes : List Rake) : List DemurrageAlert :=
  ((rakes.filter (fun r => r.status == "loading")).filterMap (rake_alert now)).mergeSort
    (fun a b => alertKeyLe b a)

/-- The endpoint `get_total_demurrage_cost`: sum `duration_hours * 2000` over all
rakes in `loading` status (no dwell-time cutoff here). -/
def get_total_demurrage_cost (now : ℚ) (rakes : List Rake) : ℚ :=
  ((rakes.filter (fun r => r.status == "loading")).map
    (fun r => (now - r.formation_time) * 2000)).sum

/-! ### Cost model and source selector (`optimize_costs`, server.py
1354-1466) -/

/-- The per-order inputs read by `optimize_costs`:
`order['quantity']`, `order.get('days_until_deadline', 7)`,
`order.get('penalty_per_day', 5000)`. -/
structure OrderParams where
  quantity : ℚ
  days_until_deadline : ℚ
  penalty_per_day : ℚ
deriving Repr, DecidableEq

structure StockyardRec where
  id : String
  name : String
  location : String
deriving Repr, DecidableEq

/-- One inventory candidate as the loop sees it: the stockyard looked up
from its `stockyard_id` (`None` makes the loop `continue`), the value of
`hash(stockyard['location'] + order['destination'])`, and the
`current_utilization` values of the stockyard's loading points. -/
structure Candidate where
  stockyard : Option StockyardRec
  location_hash : ℕ
  loading_utils : List ℚ
deriving Repr, DecidableEq

structure CostBreakdown where
  loading_cost : ℚ
  transport_cost : ℚ
  demurrage_cost : ℚ
  penalty_cost : ℚ
  total_cost : ℚ
deriving Repr, DecidableEq

/-- Code: `loading_cost = order['quantity'] * 25`. -/
def loading_cost (quantity : ℚ) : ℚ := quantity * 25

/-- Code: `distance_km = 500 + (hash(stockyard['location'] + order['destination']) % 1000)`. -/
def distance_of (location_hash : ℕ) : ℚ := 500 + (location_hash % 1000 : ℕ)

/-- Code: `transport_cost = distance_km * 5.5 * order['quantity'] / 60`. -/
def transport_cost (distance_km quantity : ℚ) : ℚ :=
  distance_km * (11 / 2) * quantity / 60

/-- Code: `avg_utilization = sum(...) / len(...) if loading_points else 0.5`. -/
def avg_utilization (lps : List ℚ) : ℚ :=
  if lps.length > 0 then lps.sum / lps.length else 1 / 2

/-- Code: `demurrage_days = max(1, avg_utilization * 3)`. -/
def demurrage_days (avg_util : ℚ) : ℚ := max 1 (avg_util * 3)

/-- Code: `demurrage_cost = demurrage_days * 2000 * (order['quantity'] / 60)`. -/
def demurrage_cost (avg_util quantity : ℚ) : ℚ :=
  demurrage_days avg_util * 2000 * (quantity / 60)

/-- Code: `transport_days = distance_km / 400`; `total_days = demurrage_days +
transport_days`; penalty `(total_days - days_to_deadline) * penalty_per_day`
when `total_days > days_to_deadline`, else 0. -/
def penalty_cost (distance_km avg_util days_to_deadline penalty_per_day : ℚ) : ℚ :=
  let transport_days := distance_km / 400
  let total_days := demurrage_days avg_util + transport_days
  if total_days > days_to_deadline then (total_days - days_to_deadline) * penalty_per_day
  else 0

/-- The full `CostBreakdown` the loop computes for one candidate. -/
def candidate_breakdown (o : OrderParams) (c : Candidate) : CostBreakdown :=
  let distance_km := distance_of c.location_hash
  let lc := loading_cost o.quantity
  let tc := transport_cost distance_km o.quantity
  let dc := demurrage_cost (avg_utilization c.loading_utils) o.quantity
  let pc := penalty_cost distance_km (avg_utilization c.loading_utils)
    o.days_until_deadline o.penalty_per_day
  ⟨lc, tc, dc, pc, lc + tc + dc + pc⟩

/-- The selection loop of `optimize_costs`: `best_cost = inf`; for each
candidate with a resolvable stockyard, keep it as best exactly when its
`total_cost < best_cost` (strict comparison). -/
def selectAux (o : OrderParams) :
    List Candidate → Option (StockyardRec × CostBreakdown) →
      Option (StockyardRec × CostBreakdown)
  | [], best => best
  | c :: cs, best =>
    match c.stockyard with
    | none => selectAux o cs best
    | some sy =>
      let bd := candidate_breakdown o c
      match best with
      | none => selectAux o cs (some (sy, bd))
      | some (bsy, bbd) =>
        if bd.total_cost < bbd.total_cost then selectAux o cs (some (sy, bd))
        else selectAux o cs (some (bsy, bbd))

/-- Run the selection loop over the candidate inventories. -/
def select_source (o : OrderParams) (cs : List Candidate) :
    Option (StockyardRec × CostBreakdown) :=
  selectAux o cs none

structure CostAnalysisR where
  stockyard : StockyardRec
  breakdown : CostBreakdown
  cost_savings : ℚ
  efficiency_score : ℚ
deriving Repr, DecidableEq

/-- The per-order tail of `optimize_costs`: when a best candidate exists,
`average_cost = best_cost * 1.3`, `cost_savings = average_cost - best_cost`,
`efficiency_score = min(95, (average_cost - best_cost) / average_cost * 100)`. -/
def analyze_order (o : OrderParams) (cs : List Candidate) : Option CostAnalysisR :=
  match select_source o cs with
  | none => none
  | some (sy, bd) =>
    let average_cost := bd.total_cost * (13 / 10)
    let cost_savings := average_cost - bd.total_cost
    let efficiency_score := min 95 ((average_cost - bd.total_cost) / average_cost * 100)
    some ⟨sy, bd, cost_savings, efficiency_score⟩

/-! ### Lemmas about the greedy allocator -/

lemma allocateGreedy_nonpos (ws : List Wagon) (r : ℚ) (h : r ≤ 0) :
    allocateGreedy ws r = ([], r) := by
  cases ws with
  | nil => rfl
  | cons w ws => simp [allocateGreedy, h]

lemma allocateGreedy_sum (ws : List Wagon) (r : ℚ) :
    ((allocateGreedy ws r).1.map (·.allocated_load)).sum + (allocateGreedy ws r).2 = r := by
  induction ws generalizing r with
  | nil => simp [allocateGreedy]
  | cons w ws ih =>
    by_cases h : r ≤ 0
    · simp [allocateGreedy, h]
    · simp only [allocateGreedy, if_neg h, List.map_cons, List.sum_cons]
      have := ih (r - min w.capacity r)
      linarith

lemma optimize_wagon_loading_ok (q : ℚ) (ws : List Wagon) (r : WagonOptimizationResult)
    (h : optimize_wagon_loading q ws = .ok r) :
    r.wagon_allocations = (allocateGreedy (sortWagons ws) q).1 ∧
      r.remaining_quantity = (allocateGreedy (sortWagons ws) q).2 ∧
      r.wagons_allocated = (allocateGreedy (sortWagons ws) q).1.length := by
  simp only [optimize_wagon_loading, Except.ok.injEq] at h
  subst h
  exact ⟨rfl, rfl, rfl⟩

/-- C1: For every input to the wagon allocator (any total quantity and any
list of available wagons with positive capacities), the sum of the
allocated loads over all allocated wagons plus the reported
`remaining_quantity` equals `total_quantity`. -/
theorem wagon_allocation_conservation (q : ℚ) (ws : List Wagon)
    (hpos : ∀ w ∈ ws, 0 < w.capacity) (r : WagonOptimizationResult)
    (h : optimize_wagon_loading q ws = .ok r) :
    (r.wagon_allocations.map (·.allocated_load)).sum + r.remaining_quantity = q := by
  obtain ⟨h1, h2, -⟩ := optimize_wagon_loading_ok q ws r h
  rw [h1, h2]
  exact allocateGreedy_sum (sortWagons ws) q

theorem wagon_allocation_conservation_witness :
    ∃ r, optimize_wagon_loading 100 [⟨"w1", "001", 60⟩, ⟨"w2", "002", 55⟩] = .ok r ∧
      (r.wagon_allocations.map (·.allocated_load)).sum + r.remaining_quantity = 100 :=
  ⟨_, rfl, wagon_allocation_conservation 100 _ (by decide) _ rfl⟩

/-- C8: When the available wagon list is empty, the allocator returns a
normal result with no allocations and `remaining_quantity` equal to the
requested quantity — not an error. -/
theorem empty_pool_partial_result (q : ℚ) :
    optimize_wagon_loading q [] = .ok ⟨q, 0, 0, 0, 0, [], q, 0⟩ := by
  simp [optimize_wagon_loading, sortWagons, allocateGreedy, List.mergeSort_nil]

lemma optimize_wagon_loading_zero (ws : List Wagon) :
    optimize_wagon_loading 0 ws = .ok ⟨0, 0, 0, 0, 0, [], 0, 0⟩ := by
  simp [optimize_wagon_loading, allocateGreedy_nonpos (sortWagons ws) 0 le_rfl]

/-- C4 counterexample: calling the allocator with `total_quantity = 0` does
NOT produce an `InvalidInput` error; it returns a normal allocation
result (empty allocation, zero remainder). -/
theorem zero_quantity_not_rejected :
    optimize_wagon_loading 0 [⟨"w1", "001", 60⟩] ≠ .error .invalidInput ∧
      optimize_wagon_loading 0 [⟨"w1", "001", 60⟩] = .ok ⟨0, 0, 0, 0, 0, [], 0, 0⟩ := by
  rw [optimize_wagon_loading_zero]
  simp

/-- C4 amended: for `total_quantity = 0` (and any wagon pool) the
allocator returns a normal empty allocation with `remaining_quantity = 0`
rather than rejecting the input. -/
theorem zero_quantity_normal_result (ws : List Wagon) :
    optimize_wagon_loading 0 ws = .ok ⟨0, 0, 0, 0, 0, [], 0, 0⟩ :=
  optimize_wagon_loading_zero ws

lemma allocateGreedy_full_except_last (ws : List Wagon) (r : ℚ)
    (hpos : ∀ w ∈ ws, 0 < w.capacity) :
    ∀ a ∈ (allocateGreedy ws r).1.dropLast,
      a.allocated_load = a.capacity ∧ a.utilization = 100 := by
  induction ws generalizing r with
  | nil => simp [allocateGreedy]
  | cons w ws ih =>
    by_cases h : r ≤ 0
    · simp [allocateGreedy, h]
    · have hw : 0 < w.capacity := hpos w (by simp)
      by_cases hc : w.capacity ≤ r
      · have hmin : min w.capacity r = w.capacity := min_eq_left hc
        have ihw := ih (r - w.capacity) (fun x hx => hpos x (by simp [hx]))
        simp only [allocateGreedy, if_neg h, hmin]
        intro a ha
        cases hrest : (allocateGreedy ws (r - w.capacity)).1 with
        | nil => rw [hrest] at ha; simp at ha
        | cons y ys =>
          rw [hrest, List.dropLast_cons₂] at ha
          rcases List.mem_cons.mp ha with rfl | hmem
          · exact ⟨rfl, by field_simp⟩
          · rw [hrest] at ihw
            exact ihw a hmem
      · have hmin : min w.capacity r = r := min_eq_right (le_of_not_le hc)
        simp only [allocateGreedy, if_neg h, hmin, sub_self,
          allocateGreedy_nonpos ws 0 le_rfl]
        simp

/-- C9: In every allocation produced by the wagon allocator (over wagons of
positive capacity), every allocated wagon except possibly the last one in
allocation order is loaded to exactly its full capacity (utilization
exactly 100); hence at most one allocated wagon is partially filled. -/
theorem all_but_last_wagon_full (q : ℚ) (ws : List Wagon)
    (hpos : ∀ w ∈ ws, 0 < w.capacity) (r : WagonOptimizationResult)
    (h : optimize_wagon_loading q ws = .ok r) :
    ∀ a ∈ r.wagon_allocations.dropLast,
      a.allocated_load = a.capacity ∧ a.utilization = 100 := by
  obtain ⟨h1, -, -⟩ := optimize_wagon_loading_ok q ws r h
  rw [h1]
  refine allocateGreedy_full_except_last (sortWagons ws) q ?_
  intro w hw
  exact hpos w ((List.mergeSort_perm ws _).mem_iff.mp hw)

theorem all_but_last_wagon_full_witness :
    ∃ r, optimize_wagon_loading 100 [⟨"w1", "001", 60⟩, ⟨"w2", "002", 55⟩] = .ok r ∧
      ∀ a ∈ r.wagon_allocations.dropLast,
        a.allocated_load = a.capacity ∧ a.utilization = 100 :=
  ⟨_, rfl, all_but_last_wagon_full 100 _ (by decide) _ rfl⟩

lemma allocateGreedy_count_homogeneous (C : ℚ) (hC : 0 < C) :
    ∀ (ws : List Wagon) (Q : ℚ), 0 < Q → (∀ w ∈ ws, w.capacity = C) →
      Q ≤ (ws.length : ℚ) * C → ((allocateGreedy ws Q).1.length : ℤ) = ⌈Q / C⌉ := by
  intro ws
  induction ws with
  | nil =>
    intro Q hQ _ htot
    simp only [List.length_nil, Nat.cast_zero, zero_mul] at htot
    linarith
  | cons w ws ih =>
    intro Q hQ hcap htot
    have hwc : w.capacity = C := hcap w (by simp)
    have hnQ : ¬ Q ≤ 0 := not_le.mpr hQ
    by_cases hq : Q ≤ C
    · have hmin : min w.capacity Q = Q := by rw [hwc]; exact min_eq_right hq
      simp only [allocateGreedy, if_neg hnQ, hmin, sub_self,
        allocateGreedy_nonpos ws 0 le_rfl, List.length_cons, List.length_nil]
      rw [show ((0 + 1 : ℕ) : ℤ) = 1 by norm_num, eq_comm, Int.ceil_eq_iff]
      constructor
      · simpa using div_pos hQ hC
      · simpa using (div_le_one hC).mpr hq
    · push_neg at hq
      have hmin : min w.capacity Q = C := by rw [hwc]; exact min_eq_left hq.le
      have hlen : Q - C ≤ (ws.length : ℚ) * C := by
        have : Q ≤ ((ws.length : ℚ) + 1) * C := by
          simpa [add_mul, add_comm] using htot
        linarith
      have hrec := ih (Q - C) (by linarith) (fun x hx => hcap x (by simp [hx])) hlen
      simp only [allocateGreedy, if_neg hnQ, hmin, List.length_cons]
      have hdiv : (Q - C) / C = Q / C - 1 := by
        rw [sub_div, div_self hC.ne']
      rw [hdiv] at hrec
      have hceil : ⌈Q / C - 1⌉ = ⌈Q / C⌉ - 1 := by
        simpa using Int.ceil_sub_int (Q / C) 1
      rw [hceil] at hrec
      push_cast
      omega

/-- C5: For every homogeneous wagon pool in which all wagons have equal
capacity `C > 0`, and every quantity `Q > 0` with total pool capacity at
least `Q`, the allocator uses exactly `⌈Q / C⌉` wagons. -/
theorem homogeneous_pool_minimality (C Q : ℚ) (ws : List Wagon)
    (hC : 0 < C) (hQ : 0 < Q) (hcap : ∀ w ∈ ws, w.capacity = C)
    (htot : Q ≤ (ws.length : ℚ) * C) (r : WagonOptimizationResult)
    (h : optimize_wagon_loading Q ws = .ok r) :
    (r.wagons_allocated : ℤ) = ⌈Q / C⌉ := by
  obtain ⟨-, -, h3⟩ := optimize_wagon_loading_ok Q ws r h
  rw [h3]
  refine allocateGreedy_count_homogeneous C hC (sortWagons ws) Q hQ ?_ ?_
  · intro w hw
    exact hcap w ((List.mergeSort_perm ws _).mem_iff.mp hw)
  · have hl : (sortWagons ws).length = ws.length :=
      (List.mergeSort_perm ws _).length_eq
    rw [hl]
    exact htot

theorem homogeneous_pool_minimality_witness :
    ∃ r, optimize_wagon_loading 100 [⟨"w1", "001", 60⟩, ⟨"w2", "002", 60⟩] = .ok r ∧
      (r.wagons_allocated : ℤ) = ⌈(100 : ℚ) / 60⌉ :=
  ⟨_, rfl, homogeneous_pool_minimality 60 100 _ (by norm_num) (by norm_num)
    (by decide) (by norm_num) _ rfl⟩

/-! ### Demurrage estimator theorems -/

lemma get_active_singleton (now : ℚ) (rk : Rake) (hst : rk.status = "loading") :
    get_active_demurrage_alerts now [rk] =
      match rake_alert now rk with
      | none => []
      | some a => [a] := by
  rw [get_active_demurrage_alerts]
  have hfil : [rk].filter (fun r => r.status == "loading") = [rk] := by
    simp [List.filter, hst]
  rw [hfil]
  rcases h : rake_alert now rk with - | a
  · simp [List.filterMap, h, List.mergeSort_nil]
  · simp [List.filterMap, h, List.mergeSort_singleton]

lemma rake_alert_eq (now : ℚ) (rk : Rake) :
    rake_alert now rk =
      match classify_alert (now - rk.formation_time) with
      | none => none
      | some lvl => some ⟨rk.id, now - rk.formation_time, 2000,
          (now - rk.formation_time) * 2000, lvl⟩ := by
  rw [rake_alert]

/-- C2 counterexample: a rake formed 30 hours ago with 10 wagons accrues a
cost of 60,000 (duration * 2000, flat), not 30 * 2000 * 10 = 600,000 as
the claim asserts. -/
theorem demurrage_ignores_wagon_count :
    get_active_demurrage_alerts 30 [⟨"r1", "RK1", "loading", 0, List.replicate 10 "w"⟩] =
        [⟨"r1", 30, 2000, 60000, "critical"⟩] ∧
      (List.replicate 10 "w").length = 10 ∧ (60000 : ℚ) ≠ 30 * 2000 * 10 := by
  refine ⟨?_, by decide, by norm_num⟩
  rw [get_active_singleton 30 _ rfl, rake_alert_eq]
  have hcl : classify_alert ((30 : ℚ) - 0) = some "critical" := by
    rw [classify_alert, if_neg (by norm_num), if_pos (by norm_num)]
  rw [hcl]
  norm_num

/-- C2 amended: for every alert emitted by the demurrage estimator, the
accrued cost equals `elapsed_hours * 2000` — a flat hourly rate not
multiplied by the rake's wagon count; the 30-hour example rake accrues
60,000. -/
theorem demurrage_cost_flat_rate (now : ℚ) (rakes : List Rake) (a : DemurrageAlert)
    (ha : a ∈ get_active_demurrage_alerts now rakes) :
    a.cost_per_hour = 2000 ∧
      a.total_demurrage_cost = a.current_duration_hours * 2000 ∧
      ∃ rk ∈ rakes, rk.status = "loading" ∧
        a.current_duration_hours = now - rk.formation_time := by
  rw [get_active_demurrage_alerts] at ha
  have ha' := (List.mergeSort_perm _ _).mem_iff.mp ha
  obtain ⟨rk, hrk, heq⟩ := List.mem_filterMap.mp ha'
  obtain ⟨hmem, hst⟩ := List.mem_filter.mp hrk
  rw [rake_alert] at heq
  rcases hcl : classify_alert (now - rk.formation_time) with - | lvl
  · rw [hcl] at heq
    simp at heq
  · rw [hcl] at heq
    simp only [Option.some.injEq] at heq
    subst heq
    exact ⟨rfl, rfl, rk, hmem, by simpa using hst, rfl⟩

theorem demurrage_cost_flat_rate_witness :
    ∃ a ∈ get_active_demurrage_alerts 30 [⟨"r1", "RK1", "loading", 0, List.replicate 10 "w"⟩],
      a.cost_per_hour = 2000 ∧ a.total_demurrage_cost = a.current_duration_hours * 2000 := by
  have hl : get_active_demurrage_alerts 30 [⟨"r1", "RK1", "loading", 0, List.replicate 10 "w"⟩] =
      [⟨"r1", 30, 2000, 60000, "critical"⟩] := by
    rw [get_active_singleton 30 _ rfl, rake_alert_eq]
    have hcl : classify_alert ((30 : ℚ) - 0) = some "critical" := by
      rw [classify_alert, if_neg (by norm_num), if_pos (by norm_num)]
    rw [hcl]
    norm_num
  have hmem : (⟨"r1", 30, 2000, 60000, "critical"⟩ : DemurrageAlert) ∈
      get_active_demurrage_alerts 30 [⟨"r1", "RK1", "loading", 0, List.replicate 10 "w"⟩] := by
    rw [hl]; exact List.mem_singleton_self _
  have h := demurrage_cost_flat_rate 30 [⟨"r1", "RK1", "loading", 0, List.replicate 10 "w"⟩]
    ⟨"r1", 30, 2000, 60000, "critical"⟩ hmem
  exact ⟨_, hmem, h.1, h.2.1⟩

/-- C3 counterexample: a loading rake whose elapsed time is exactly 12
hours (the claim's "at least 12" threshold) produces NO alert — the code
uses a strict `> 12` comparison. -/
theorem no_alert_at_exactly_twelve_hours :
    get_active_demurrage_alerts 12 [⟨"r1", "RK1", "loading", 0, []⟩] = [] ∧
      (12 : ℚ) - 0 ≥ 12 := by
  refine ⟨?_, by norm_num⟩
  rw [get_active_singleton 12 _ rfl, rake_alert_eq]
  have hcl : classify_alert ((12 : ℚ) - 0) = none := by
    rw [classify_alert, if_neg (by norm_num), if_neg (by norm_num), if_neg (by norm_num)]
  rw [hcl]

/-- C3 amended: a loading rake produces an alert iff its elapsed time is
strictly greater than 12 hours; the level is `warning` on (12, 24],
`critical` on (24, 48], `severe` above 48. -/
theorem alert_threshold_strict (now : ℚ) (rk : Rake) (hst : rk.status = "loading") :
    (get_active_demurrage_alerts now [rk] ≠ [] ↔ 12 < now - rk.formation_time) ∧
      ∀ a ∈ get_active_demurrage_alerts now [rk],
        (a.alert_level = "warning" ↔
          12 < now - rk.formation_time ∧ now - rk.formation_time ≤ 24) ∧
        (a.alert_level = "critical" ↔
          24 < now - rk.formation_time ∧ now - rk.formation_time ≤ 48) ∧
        (a.alert_level = "severe" ↔ 48 < now - rk.formation_time) := by
  rw [get_active_singleton now rk hst, rake_alert_eq]
  rcases le_or_lt (now - rk.formation_time) 12 with h12 | h12
  · have hcl : classify_alert (now - rk.formation_time) = none := by
      rw [classify_alert, if_neg (by simp; linarith), if_neg (by simp; linarith),
        if_neg (by simp; linarith)]
    rw [hcl]
    refine ⟨⟨fun hne => absurd rfl hne, fun hlt => absurd hlt (by linarith)⟩, ?_⟩
    intro a ha
    exact absurd ha (List.not_mem_nil a)
  · rcases le_or_lt (now - rk.formation_time) 24 with h24 | h24
    · have hcl : classify_alert (now - rk.formation_time) = some "warning" := by
        rw [classify_alert, if_neg (by simp; linarith), if_neg (by simp; linarith),
          if_pos (by simpa using h12)]
      rw [hcl]
      refine ⟨⟨fun _ => h12, fun _ => by simp⟩, ?_⟩
      intro a ha
      rw [List.mem_singleton] at ha
      subst ha
      refine ⟨⟨fun _ => ⟨h12, h24⟩, fun _ => rfl⟩, ⟨fun h' => ?_, fun h' => ?_⟩,
        ⟨fun h' => ?_, fun h' => ?_⟩⟩
      · exact absurd h' (by simp)
      · linarith [h'.1]
      · exact absurd h' (by simp)
      · linarith
    · rcases le_or_lt (now - rk.formation_time) 48 with h48 | h48
      · have hcl : classify_alert (now - rk.formation_time) = some "critical" := by
          rw [classify_alert, if_neg (by simp; linarith), if_pos (by simpa using h24)]
        rw [hcl]
        refine ⟨⟨fun _ => h12, fun _ => by simp⟩, ?_⟩
        intro a ha
        rw [List.mem_singleton] at ha
        subst ha
        refine ⟨⟨fun h' => ?_, fun h' => ?_⟩, ⟨fun _ => ⟨h24, h48⟩, fun _ => rfl⟩,
          ⟨fun h' => ?_, fun h' => ?_⟩⟩
        · exact absurd h' (by simp)
        · linarith [h'.2]
        · exact absurd h' (by simp)
        · linarith
      · have hcl : classify_alert (now - rk.formation_time) = some "severe" := by
          rw [classify_alert, if_pos (by simpa using h48)]
        rw [hcl]
        refine ⟨⟨fun _ => h12, fun _ => by simp⟩, ?_⟩
        intro a ha
        rw [List.mem_singleton] at ha
        subst ha
        refine ⟨⟨fun h' => ?_, fun h' => ?_⟩, ⟨fun h' => ?_, fun h' => ?_⟩,
          ⟨fun _ => h48, fun _ => rfl⟩⟩
        · exact absurd h' (by simp)
        · linarith [h'.2]
        · exact absurd h' (by simp)
        · linarith [h'.2]

theorem alert_threshold_strict_witness :
    (get_active_demurrage_alerts 30 [⟨"r1", "RK1", "loading", 0, []⟩] ≠ [] ↔
        12 < (30 : ℚ) - (0 : ℚ)) ∧
      ∀ a ∈ get_active_demurrage_alerts 30 [⟨"r1", "RK1", "loading", 0, []⟩],
        (a.alert_level = "warning" ↔ 12 < (30 : ℚ) - (0 : ℚ) ∧ (30 : ℚ) - (0 : ℚ) ≤ 24) ∧
        (a.alert_level = "critical" ↔ 24 < (30 : ℚ) - (0 : ℚ) ∧ (30 : ℚ) - (0 : ℚ) ≤ 48) ∧
        (a.alert_level = "severe" ↔ 48 < (30 : ℚ) - (0 : ℚ)) :=
  alert_threshold_strict 30 ⟨"r1", "RK1", "loading", 0, []⟩ rfl

/-! ### Cost model theorems -/

/-- C7: Each cost component is monotonically non-decreasing in its driving
input with the other parameters fixed: loading cost in quantity,
transport cost in distance and quantity, demurrage cost in average
loading-point utilization and quantity, and penalty cost in
`penalty_per_day` and in delay (driven here by distance, which increases
transit days and hence total delay). -/
theorem cost_components_monotone :
    (∀ q₁ q₂ : ℚ, q₁ ≤ q₂ → loading_cost q₁ ≤ loading_cost q₂) ∧
      (∀ d₁ d₂ q : ℚ, 0 ≤ q → d₁ ≤ d₂ → transport_cost d₁ q ≤ transport_cost d₂ q) ∧
      (∀ d q₁ q₂ : ℚ, 0 ≤ d → q₁ ≤ q₂ → transport_cost d q₁ ≤ transport_cost d q₂) ∧
      (∀ u₁ u₂ q : ℚ, 0 ≤ q → u₁ ≤ u₂ → demurrage_cost u₁ q ≤ demurrage_cost u₂ q) ∧
      (∀ u q₁ q₂ : ℚ, q₁ ≤ q₂ → demurrage_cost u q₁ ≤ demurrage_cost u q₂) ∧
      (∀ d u dl p₁ p₂ : ℚ, p₁ ≤ p₂ → 0 ≤ p₁ →
        penalty_cost d u dl p₁ ≤ penalty_cost d u dl p₂) ∧
      (∀ d₁ d₂ u dl p : ℚ, 0 ≤ p → d₁ ≤ d₂ →
        penalty_cost d₁ u dl p ≤ penalty_cost d₂ u dl p) := by
  refine ⟨?_, ?_, ?_, ?_, ?_, ?_, ?_⟩
  · intro q₁ q₂ h
    simpa [loading_cost] using
      mul_le_mul_of_nonneg_right h (by norm_num : (0 : ℚ) ≤ 25)
  · intro d₁ d₂ q hq h
    simp only [transport_cost]
    have : d₁ * (11 / 2) * q ≤ d₂ * (11 / 2) * q := by nlinarith
    linarith
  · intro d q₁ q₂ hd h
    simp only [transport_cost]
    have : d * (11 / 2) * q₁ ≤ d * (11 / 2) * q₂ := by nlinarith
    linarith
  · intro u₁ u₂ q hq h
    simp only [demurrage_cost, demurrage_days]
    have hm : max 1 (u₁ * 3) ≤ max 1 (u₂ * 3) :=
      max_le_max le_rfl (by linarith)
    have hq60 : (0 : ℚ) ≤ q / 60 := by positivity
    calc max 1 (u₁ * 3) * 2000 * (q / 60) ≤ max 1 (u₂ * 3) * 2000 * (q / 60) := by
          apply mul_le_mul_of_nonneg_right _ hq60
          linarith
      _ = max 1 (u₂ * 3) * 2000 * (q / 60) := rfl
  · intro u q₁ q₂ h
    simp only [demurrage_cost, demurrage_days]
    have hd : (0 : ℚ) ≤ max 1 (u * 3) * 2000 := by
      have : (1 : ℚ) ≤ max 1 (u * 3) := le_max_left _ _
      linarith
    have : q₁ / 60 ≤ q₂ / 60 := by linarith
    exact mul_le_mul_of_nonneg_left this hd
  · intro d u dl p₁ p₂ hp hp0
    simp only [penalty_cost]
    split_ifs with hb
    · have : (0 : ℚ) ≤ demurrage_days u + d / 400 - dl := by linarith
      exact mul_le_mul_of_nonneg_left hp this
    · exact le_rfl
  · intro d₁ d₂ u dl p hp h
    simp only [penalty_cost]
    have htd : demurrage_days u + d₁ / 400 ≤ demurrage_days u + d₂ / 400 := by
      have : d₁ / 400 ≤ d₂ / 400 := by linarith
      linarith
    split_ifs with h₁ h₂
    · apply mul_le_mul_of_nonneg_right _ hp
      linarith
    · exact absurd (lt_of_lt_of_le h₁ htd) h₂
    · have : (0 : ℚ) ≤ demurrage_days u + d₂ / 400 - dl := by linarith
      positivity
    · exact le_rfl

theorem cost_components_monotone_witness :
    loading_cost 3 ≤ loading_cost 5 ∧
      transport_cost 500 60 ≤ transport_cost 600 60 ∧
      transport_cost 500 60 ≤ transport_cost 500 80 ∧
      demurrage_cost (1 / 2) 60 ≤ demurrage_cost (3 / 4) 60 ∧
      demurrage_cost (1 / 2) 60 ≤ demurrage_cost (1 / 2) 80 ∧
      penalty_cost 500 (1 / 2) 1 5000 ≤ penalty_cost 500 (1 / 2) 1 6000 ∧
      penalty_cost 500 (1 / 2) 1 5000 ≤ penalty_cost 900 (1 / 2) 1 5000 :=
  ⟨cost_components_monotone.1 3 5 (by norm_num),
    cost_components_monotone.2.1 500 600 60 (by norm_num) (by norm_num),
    cost_components_monotone.2.2.1 500 60 80 (by norm_num) (by norm_num),
    cost_components_monotone.2.2.2.1 (1 / 2) (3 / 4) 60 (by norm_num) (by norm_num),
    cost_components_monotone.2.2.2.2.1 (1 / 2) 60 80 (by norm_num),
    cost_components_monotone.2.2.2.2.2.1 500 (1 / 2) 1 5000 6000 (by norm_num) (by norm_num),
    cost_components_monotone.2.2.2.2.2.2 500 900 (1 / 2) 1 5000 (by norm_num) (by norm_num)⟩

/-! ### Source selector: stable first-minimum selection -/

/-- Abbreviation for a candidate's computed `total_cost`. -/
def candidate_total (o : OrderParams) (c : Candidate) : ℚ :=
  (candidate_breakdown o c).total_cost

lemma selectAux_spec (o : OrderParams) :
    ∀ (cs : List Candidate) (bsy : StockyardRec) (bbd : CostBreakdown)
      (sy : StockyardRec) (bd : CostBreakdown),
      selectAux o cs (some (bsy, bbd)) = some (sy, bd) →
        (sy = bsy ∧ bd = bbd ∧
          ∀ c ∈ cs, c.stockyard.isSome = true → bbd.total_cost ≤ candidate_total o c) ∨
        (∃ l₁ c l₂, cs = l₁ ++ c :: l₂ ∧ c.stockyard = some sy ∧
          candidate_breakdown o c = bd ∧ bd.total_cost < bbd.total_cost ∧
          (∀ c' ∈ l₁, c'.stockyard.isSome = true → bd.total_cost < candidate_total o c') ∧
          (∀ c' ∈ l₂, c'.stockyard.isSome = true → bd.total_cost ≤ candidate_total o c')) := by
  intro cs
  induction cs with
  | nil =>
    intro bsy bbd sy bd h
    simp only [selectAux, Option.some.injEq, Prod.mk.injEq] at h
    exact Or.inl ⟨h.1.symm, h.2.symm, by simp⟩
  | cons c cs ih =>
    intro bsy bbd sy bd h
    rcases hsy : c.stockyard with - | csy
    · simp only [selectAux, hsy] at h
      rcases ih bsy bbd sy bd h with ⟨h1, h2, h3⟩ | ⟨l₁, c₀, l₂, hsplit, h1, h2, h3, h4, h5⟩
      · refine Or.inl ⟨h1, h2, ?_⟩
        intro c' hc' hv
        rcases List.mem_cons.mp hc' with rfl | hmem
        · rw [hsy] at hv; simp at hv
        · exact h3 c' hmem hv
      · refine Or.inr ⟨c :: l₁, c₀, l₂, by rw [hsplit]; rfl, h1, h2, h3, ?_, h5⟩
        intro c' hc' hv
        rcases List.mem_cons.mp hc' with rfl | hmem
        · rw [hsy] at hv; simp at hv
        · exact h4 c' hmem hv
    · simp only [selectAux, hsy] at h
      by_cases hlt : (candidate_breakdown o c).total_cost < bbd.total_cost
      · rw [if_pos hlt] at h
        rcases ih csy (candidate_breakdown o c) sy bd h with
          ⟨h1, h2, h3⟩ | ⟨l₁, c₀, l₂, hsplit, h1, h2, h3, h4, h5⟩
        · refine Or.inr ⟨[], c, cs, rfl, ?_, h2.symm, ?_, by simp, ?_⟩
          · rw [hsy, h1]
          · rw [h2]; exact hlt
          · intro c' hc' hv
            rw [h2]
            exact h3 c' hc' hv
        · refine Or.inr ⟨c :: l₁, c₀, l₂, by rw [hsplit]; rfl, h1, h2, by linarith, ?_, h5⟩
          intro c' hc' hv
          rcases List.mem_cons.mp hc' with rfl | hmem
          · exact h3
          · exact h4 c' hmem hv
      · rw [if_neg hlt] at h
        rcases ih bsy bbd sy bd h with ⟨h1, h2, h3⟩ | ⟨l₁, c₀, l₂, hsplit, h1, h2, h3, h4, h5⟩
        · refine Or.inl ⟨h1, h2, ?_⟩
          intro c' hc' hv
          rcases List.mem_cons.mp hc' with rfl | hmem
          · exact le_of_not_lt hlt
          · exact h3 c' hmem hv
        · refine Or.inr ⟨c :: l₁, c₀, l₂, by rw [hsplit]; rfl, h1, h2, h3, ?_, h5⟩
          intro c' hc' hv
          rcases List.mem_cons.mp hc' with rfl | hmem
          · exact lt_of_lt_of_le h3 (le_of_not_lt hlt)
          · exact h4 c' hmem hv

lemma select_source_split (o : OrderParams) :
    ∀ (cs : List Candidate) (sy : StockyardRec) (bd : CostBreakdown),
      select_source o cs = some (sy, bd) →
        ∃ l₁ c l₂, cs = l₁ ++ c :: l₂ ∧ c.stockyard = some sy ∧
          candidate_breakdown o c = bd ∧
          (∀ c' ∈ l₁, c'.stockyard.isSome = true → bd.total_cost < candidate_total o c') ∧
          (∀ c' ∈ l₂, c'.stockyard.isSome = true → bd.total_cost ≤ candidate_total o c') := by
  intro cs
  induction cs with
  | nil =>
    intro sy bd h
    simp [select_source, selectAux] at h
  | cons c cs ih =>
    intro sy bd h
    rcases hsy : c.stockyard with - | csy
    · simp only [select_source, selectAux, hsy] at h
      obtain ⟨l₁, c₀, l₂, hsplit, h1, h2, h3, h4⟩ := ih sy bd h
      refine ⟨c :: l₁, c₀, l₂, by rw [hsplit]; rfl, h1, h2, ?_, h4⟩
      intro c' hc' hv
      rcases List.mem_cons.mp hc' with rfl | hmem
      · rw [hsy] at hv; simp at hv
      · exact h3 c' hmem hv
    · simp only [select_source, selectAux, hsy] at h
      rcases selectAux_spec o cs csy (candidate_breakdown o c) sy bd h with
        ⟨h1, h2, h3⟩ | ⟨l₁, c₀, l₂, hsplit, h1, h2, h3, h4, h5⟩
      · refine ⟨[], c, cs, rfl, ?_, h2.symm, by simp, ?_⟩
        · rw [hsy, h1]
        · intro c' hc' hv
          rw [h2]
          exact h3 c' hc' hv
      · refine ⟨c :: l₁, c₀, l₂, by rw [hsplit]; rfl, h1, h2, ?_, h5⟩
        intro c' hc' hv
        rcases List.mem_cons.mp hc' with rfl | hmem
        · exact h3
        · exact h4 c' hmem hv

/-- C6: The source selector is a stable first-minimum choice: whenever it
returns a best candidate, that candidate occurs in the input list, every
valid candidate strictly before it has strictly greater `total_cost`, and
every valid candidate anywhere has `total_cost` at least the chosen one.
In particular, among candidates with exactly equal minimal `total_cost`,
the one appearing first in input order is chosen. -/
theorem select_source_first_of_ties (o : OrderParams) (cs : List Candidate)
    (sy : StockyardRec) (bd : CostBreakdown)
    (h : select_source o cs = some (sy, bd)) :
    ∃ l₁ c l₂, cs = l₁ ++ c :: l₂ ∧ c.stockyard = some sy ∧
      candidate_breakdown o c = bd ∧
      (∀ c' ∈ l₁, c'.stockyard.isSome = true → bd.total_cost < candidate_total o c') ∧
      (∀ c' ∈ cs, c'.stockyard.isSome = true → bd.total_cost ≤ candidate_total o c') := by
  obtain ⟨l₁, c, l₂, hsplit, h1, h2, h3, h4⟩ := select_source_split o cs sy bd h
  refine ⟨l₁, c, l₂, hsplit, h1, h2, h3, ?_⟩
  intro c' hc' hv
  rw [hsplit] at hc'
  rcases List.mem_append.mp hc' with hmem | hmem
  · exact le_of_lt (h3 c' hmem hv)
  · rcases List.mem_cons.mp hmem with rfl | hmem
    · exact le_of_eq (by rw [candidate_total, h2])
    · exact h4 c' hmem hv

theorem select_source_first_of_ties_witness :
    (candidate_total ⟨60, 7, 5000⟩ ⟨some ⟨"s1", "A", "X"⟩, 0, []⟩ =
        candidate_total ⟨60, 7, 5000⟩ ⟨some ⟨"s2", "B", "X"⟩, 0, []⟩) ∧
      ∃ l₁ c l₂,
        [(⟨some ⟨"s1", "A", "X"⟩, 0, []⟩ : Candidate), ⟨some ⟨"s2", "B", "X"⟩, 0, []⟩] =
            l₁ ++ c :: l₂ ∧
          c.stockyard = some ⟨"s1", "A", "X"⟩ ∧
          candidate_breakdown ⟨60, 7, 5000⟩ c =
            candidate_breakdown ⟨60, 7, 5000⟩ ⟨some ⟨"s1", "A", "X"⟩, 0, []⟩ ∧
          (∀ c' ∈ l₁, c'.stockyard.isSome = true →
            (candidate_breakdown ⟨60, 7, 5000⟩
                ⟨some ⟨"s1", "A", "X"⟩, 0, []⟩).total_cost <
              candidate_total ⟨60, 7, 5000⟩ c') ∧
          (∀ c' ∈ [(⟨some ⟨"s1", "A", "X"⟩, 0, []⟩ : Candidate),
              ⟨some ⟨"s2", "B", "X"⟩, 0, []⟩],
            c'.stockyard.isSome = true →
              (candidate_breakdown ⟨60, 7, 5000⟩
                  ⟨some ⟨"s1", "A", "X"⟩, 0, []⟩).total_cost ≤
                candidate_total ⟨60, 7, 5000⟩ c') :=
  ⟨rfl, select_source_first_of_ties ⟨60, 7, 5000⟩ _ ⟨"s1", "A", "X"⟩
    (candidate_breakdown ⟨60, 7, 5000⟩ ⟨some ⟨"s1", "A", "X"⟩, 0, []⟩) (by
      have hc : ¬ ((candidate_breakdown ⟨60, 7, 5000⟩
            ⟨some ⟨"s2", "B", "X"⟩, 0, []⟩).total_cost <
          (candidate_breakdown ⟨60, 7, 5000⟩
            ⟨some ⟨"s1", "A", "X"⟩, 0, []⟩).total_cost) := by
        simp only [candidate_breakdown]
        exact lt_irrefl _
      simp only [select_source, selectAux]
      rw [if_neg hc])⟩

/-- C10: Whenever the cost optimizer finds a feasible source and the best
total cost is strictly positive, the reported `cost_savings` is exactly
`0.3 * total_cost` and the `efficiency_score` is the constant `300 / 13`
(about 23.08), so the `min 95` cap never binds. -/
theorem savings_and_efficiency_constant (o : OrderParams) (cs : List Candidate)
    (a : CostAnalysisR) (h : analyze_order o cs = some a)
    (hpos : 0 < a.breakdown.total_cost) :
    a.cost_savings = (3 / 10) * a.breakdown.total_cost ∧
      a.efficiency_score = 300 / 13 := by
  rcases hsel : select_source o cs with - | p
  · rw [analyze_order, hsel] at h
    simp at h
  · obtain ⟨sy, bd⟩ := p
    rw [analyze_order, hsel] at h
    simp only [Option.some.injEq] at h
    subst h
    simp only at hpos
    constructor
    · simp only
      ring
    · simp only
      have hne : bd.total_cost ≠ 0 := ne_of_gt hpos
      have hterm : (bd.total_cost * (13 / 10) - bd.total_cost) /
          (bd.total_cost * (13 / 10)) * 100 = 300 / 13 := by
        field_simp
        ring
      rw [hterm]
      norm_num

theorem savings_and_efficiency_constant_witness :
    ∃ a, analyze_order ⟨60, 7, 5000⟩ [⟨some ⟨"s1", "A", "X"⟩, 0, []⟩] = some a ∧
      0 < a.breakdown.total_cost ∧
      a.cost_savings = (3 / 10) * a.breakdown.total_cost ∧
      a.efficiency_score = 300 / 13 := by
  have hsel : select_source ⟨60, 7, 5000⟩ [⟨some ⟨"s1", "A", "X"⟩, 0, []⟩] =
      some (⟨"s1", "A", "X"⟩,
        candidate_breakdown ⟨60, 7, 5000⟩ ⟨some ⟨"s1", "A", "X"⟩, 0, []⟩) := by
    simp only [select_source, selectAux]
  have hana : analyze_order ⟨60, 7, 5000⟩ [⟨some ⟨"s1", "A", "X"⟩, 0, []⟩] = some
      ⟨⟨"s1", "A", "X"⟩, candidate_breakdown ⟨60, 7, 5000⟩ ⟨some ⟨"s1", "A", "X"⟩, 0, []⟩,
        (candidate_breakdown ⟨60, 7, 5000⟩ ⟨some ⟨"s1", "A", "X"⟩, 0, []⟩).total_cost *
            (13 / 10) -
          (candidate_breakdown ⟨60, 7, 5000⟩ ⟨some ⟨"s1", "A", "X"⟩, 0, []⟩).total_cost,
        min 95 (((candidate_breakdown ⟨60, 7, 5000⟩
                ⟨some ⟨"s1", "A", "X"⟩, 0, []⟩).total_cost * (13 / 10) -
              (candidate_breakdown ⟨60, 7, 5000⟩
                ⟨some ⟨"s1", "A", "X"⟩, 0, []⟩).total_cost) /
            ((candidate_breakdown ⟨60, 7, 5000⟩
                ⟨some ⟨"s1", "A", "X"⟩, 0, []⟩).total_cost * (13 / 10)) * 100)⟩ := by
    rw [analyze_order, hsel]
  have hpos : (0 : ℚ) < (candidate_breakdown ⟨60, 7, 5000⟩
      ⟨some ⟨"s1", "A", "X"⟩, 0, []⟩).total_cost := by
    simp only [candidate_breakdown, loading_cost, transport_cost, demurrage_cost,
      demurrage_days, penalty_cost, avg_utilization, distance_of]
    norm_num
  refine ⟨_, hana, hpos, ?_⟩
  exact savings_and_efficiency_constant ⟨60, 7, 5000⟩ _ _ hana hpos

end RailRake
